import Mathlib

/-!
Verification of the weak-reference lifecycle manager of
`kotlin-native/runtime/src/mm/cpp/Weak.cpp`.

Objects and weak-reference handles are identified by natural numbers; the
mutable runtime state (the per-object side table of `ExtraObjectData` entries
and the set of allocated `RegularWeakReferenceImpl` objects) is modelled as a
record of association lists, and each runtime entry point of `Weak.cpp`
becomes a state-passing Lean function.  Collaborators that `Weak.cpp` consumes
through headers (`ExtraObjectData`, the allocator `makeRegularWeakReferenceImpl`,
`AssertThreadState`) are modelled from the spec, as marked on each definition.
-/

/-- Identity of a managed heap object (`ObjHeader*`). -/
abbrev ObjId := Nat

/-- Identity of an allocated `RegularWeakReferenceImpl` object. -/
abbrev HandleId := Nat

/-- From `Weak.cpp`: `struct RegularWeakReferenceImpl { ObjHeader header; void* referred; }`.
The `header` field is the opaque object header; `referred` is the raw pointer
to the target object, `none` standing for `nullptr`. -/
structure RegularWeakReferenceImpl where
  header : Nat
  referred : Option ObjId
  deriving Repr, DecidableEq

/-- Modelled from the spec: `ExtraObjectData` (declared in `ExtraObjectData.hpp`,
not part of the given source slice) is the per-object side-table entry holding
a reference to at most one `RegularWeakReferenceImpl` for its object. -/
structure ExtraObjectData where
  regularWeakReferenceImpl : Option HandleId
  deriving Repr, DecidableEq

/-- Thread state of the calling mutator (`ThreadState.hpp`): only the
`kRunnable` / `kNative` distinction matters to `Weak.cpp`. -/
inductive ThreadState where
  | kRunnable
  | kNative
  deriving Repr, DecidableEq

/-- Association-list lookup by key (first match wins). -/
def alookup {α : Type} (k : Nat) : List (Nat × α) → Option α
  | [] => none
  | (k₂, v) :: rest => if k = k₂ then some v else alookup k rest

/-- Association-list update: replaces the first binding of `k`, or appends a
new binding when `k` is absent. -/
def aupdate {α : Type} (k : Nat) (v : α) : List (Nat × α) → List (Nat × α)
  | [] => [(k, v)]
  | (k₂, v₂) :: rest => if k = k₂ then (k, v) :: rest else (k₂, v₂) :: aupdate k v rest

/-- The mutable runtime state touched by `Weak.cpp`: the side table of
`ExtraObjectData` entries keyed by object, the allocated weak-reference
handles keyed by handle identity, and the allocator's fresh-identity counter. -/
structure MMState where
  extras : List (ObjId × ExtraObjectData)
  handles : List (HandleId × RegularWeakReferenceImpl)
  nextHandle : HandleId
  deriving Repr, DecidableEq

/-- The empty initial runtime state: no side-table entries, no handles. -/
def initState : MMState := ⟨[], [], 0⟩

namespace mm

/-- Modelled from the spec: `mm::ExtraObjectData::GetOrInstall(object)` —
returns the object's side-table entry, installing an empty one on first use
(exactly-once lazy install). -/
def GetOrInstall (o : ObjId) (s : MMState) : ExtraObjectData × MMState :=
  match alookup o s.extras with
  | some e => (e, s)
  | none => (⟨none⟩, { s with extras := aupdate o ⟨none⟩ s.extras })

/-- Modelled from the spec: `ExtraObjectData::GetRegularWeakReferenceImpl()` —
non-allocating read of the cached handle. -/
def GetRegularWeakReferenceImpl (e : ExtraObjectData) : Option HandleId :=
  e.regularWeakReferenceImpl

/-- Modelled from the spec: `ExtraObjectData::GetOrSetRegularWeakReferenceImpl
(object, candidate)` — first-writer-wins compare-and-set: when a handle is
already installed for the object it is returned and the candidate discarded;
otherwise the candidate is installed and returned. -/
def GetOrSetRegularWeakReferenceImpl (o : ObjId) (candidate : HandleId) (s : MMState) :
    HandleId × MMState :=
  match alookup o s.extras with
  | some e =>
    match e.regularWeakReferenceImpl with
    | some existing => (existing, s)
    | none => (candidate, { s with extras := aupdate o ⟨some candidate⟩ s.extras })
  | none => (candidate, { s with extras := aupdate o ⟨some candidate⟩ s.extras })

/-- Modelled from the spec: the extern allocator `makeRegularWeakReferenceImpl
(object)` — materializes a fresh `RegularWeakReferenceImpl` with
`referred = object` (spec §4.2 step 3). Fresh identity from the counter. -/
def makeRegularWeakReferenceImpl (o : ObjId) (s : MMState) : HandleId × MMState :=
  (s.nextHandle,
   { s with
      handles := aupdate s.nextHandle ⟨s.nextHandle, some o⟩ s.handles
      nextHandle := s.nextHandle + 1 })

/-- From `Weak.cpp`, `mm::createRegularWeakReferenceImpl`: asserts the calling
thread is runnable (`AssertThreadState`, modelled from the spec as a fatal
error), fetches or installs the object's `ExtraObjectData`, returns the cached
handle when present, otherwise allocates a fresh handle and publishes it via
the first-writer-wins `GetOrSetRegularWeakReferenceImpl`, returning whichever
handle ends up published. -/
def createRegularWeakReferenceImpl (ts : ThreadState) (o : ObjId) (s : MMState) :
    Except String (HandleId × MMState) :=
  if ts ≠ ThreadState.kRunnable then
    Except.error "AssertThreadState: kRunnable"
  else
    let fetched := GetOrInstall o s
    match GetRegularWeakReferenceImpl fetched.1 with
    | some weakRef => Except.ok (weakRef, fetched.2)
    | none =>
      let made := makeRegularWeakReferenceImpl o fetched.2
      let set := GetOrSetRegularWeakReferenceImpl o made.1 made.2
      Except.ok set

/-- From `Weak.cpp`, `mm::disposeRegularWeakReferenceImpl`: unconditionally
sets the handle's `referred` field to `nullptr`. -/
def disposeRegularWeakReferenceImpl (h : HandleId) (s : MMState) : MMState :=
  match alookup h s.handles with
  | some w => { s with handles := aupdate h { w with referred := none } s.handles }
  | none => s

/-- From `Weak.cpp`, `mm::derefRegularWeakReferenceImpl`: atomic read of the
handle's `referred` field (`mm::ReadHeapRefAtomic`), returning the referred
object or empty. -/
def derefRegularWeakReferenceImpl (h : HandleId) (s : MMState) : Option ObjId :=
  (alookup h s.handles).bind (fun w => w.referred)

/-- From `Weak.cpp`, `mm::regularWeakReferenceImplBaseObjectUnsafe`: raw
(non-rooting) read of the handle's `referred` field. -/
def regularWeakReferenceImplBaseObjectUnsafe (h : HandleId) (s : MMState) : Option ObjId :=
  (alookup h s.handles).bind (fun w => w.referred)

end mm

/-- One externally invocable operation of the manager, for trace reasoning. -/
inductive Op where
  | create (ts : ThreadState) (o : ObjId)
  | dispose (h : HandleId)
  | deref (h : HandleId)
  | peek (h : HandleId)
  deriving Repr, DecidableEq

/-- The state transition of one operation.  `deref` and `peek` are reads; a
`create` whose thread-state assertion fails aborts, leaving the state as is. -/
def stepOp (s : MMState) : Op → MMState
  | Op.create ts o =>
    match mm.createRegularWeakReferenceImpl ts o s with
    | Except.ok r => r.2
    | Except.error _ => s
  | Op.dispose h => mm.disposeRegularWeakReferenceImpl h s
  | Op.deref _ => s
  | Op.peek _ => s

/-- Run a list of operations from a state. -/
def run (s : MMState) : List Op → MMState
  | [] => s
  | op :: ops => run (stepOp s op) ops

/-- Allocation-counter well-formedness: every allocated handle identity is
below the fresh counter, so fresh allocations never collide with it. -/
def wfB (s : MMState) : Bool :=
  s.handles.all (fun p => p.1 < s.nextHandle)

/-- Live-cache invariant: every handle cached in the side table exists and
still refers to its object (no `dispose` has cleared it yet). -/
def liveCacheB (s : MMState) : Bool :=
  s.extras.all (fun p =>
    match p.2.regularWeakReferenceImpl with
    | none => true
    | some h =>
      match alookup h s.handles with
      | some w => w.referred == some p.1
      | none => false)

/-- A write to some handle's `referred` field: the handle identity and the
value written (`none` for `nullptr`). -/
structure WriteEvent where
  handle : HandleId
  value : Option ObjId
  deriving Repr, DecidableEq

/-- `stepOp` instrumented with the writes to `referred` fields the operation
performs: `create`'s slow path writes `referred = object` once on the freshly
allocated handle (inside `makeRegularWeakReferenceImpl`), `dispose` writes
`none` once, and the fast path of `create`, `deref` and `peek` write
nothing. -/
def stepOpW (s : MMState) : Op → MMState × List WriteEvent
  | Op.create ts o =>
    match mm.createRegularWeakReferenceImpl ts o s with
    | Except.error _ => (s, [])
    | Except.ok r =>
      match mm.GetRegularWeakReferenceImpl (mm.GetOrInstall o s).1 with
      | some _ => (r.2, [])
      | none => (r.2, [⟨s.nextHandle, some o⟩])
  | Op.dispose h =>
    (mm.disposeRegularWeakReferenceImpl h s,
     match alookup h s.handles with
     | some _ => [⟨h, none⟩]
     | none => [])
  | Op.deref _ => (s, [])
  | Op.peek _ => (s, [])

/-- Run with accumulation of the write log. -/
def runW (s : MMState) : List Op → MMState × List WriteEvent
  | [] => (s, [])
  | op :: ops =>
    ((runW (stepOpW s op).1 ops).1, (stepOpW s op).2 ++ (runW (stepOpW s op).1 ops).2)

/-- The writes of a log that touch the `referred` field of handle `h`. -/
def logOf (h : HandleId) (log : List WriteEvent) : List WriteEvent :=
  log.filter (fun ev => ev.handle == h)

/-! ### Association-list lemmas -/

theorem alookup_aupdate_self {α : Type} (k : Nat) (v : α) (l : List (Nat × α)) :
    alookup k (aupdate k v l) = some v := by
  induction l with
  | nil => simp [alookup, aupdate]
  | cons p rest ih =>
    obtain ⟨k₂, v₂⟩ := p
    by_cases hk : k = k₂
    · simp [alookup, aupdate, hk]
    · simp [alookup, aupdate, hk, ih]

theorem alookup_aupdate_ne {α : Type} (k k₃ : Nat) (v : α) (l : List (Nat × α))
    (hne : k₃ ≠ k) : alookup k₃ (aupdate k v l) = alookup k₃ l := by
  induction l with
  | nil => simp [alookup, aupdate, hne]
  | cons p rest ih =>
    obtain ⟨k₂, v₂⟩ := p
    by_cases hk : k = k₂
    · subst hk
      simp [alookup, aupdate, hne]
    · by_cases hk₃ : k₃ = k₂
      · simp [alookup, aupdate, hk, hk₃]
      · simp [alookup, aupdate, hk, hk₃, ih]

theorem mem_aupdate {α : Type} (k : Nat) (v : α) (l : List (Nat × α)) (p : Nat × α)
    (hp : p ∈ aupdate k v l) : p = (k, v) ∨ p ∈ l := by
  induction l with
  | nil =>
    simp [aupdate] at hp
    exact Or.inl hp
  | cons q rest ih =>
    obtain ⟨k₂, v₂⟩ := q
    by_cases hk : k = k₂
    · simp [aupdate, hk] at hp
      rcases hp with hp | hp
      · exact Or.inl (by simp [hp, hk])
      · exact Or.inr (List.mem_cons_of_mem _ hp)
    · simp [aupdate, hk] at hp
      rcases hp with hp | hp
      · exact Or.inr (by simp [hp])
      · rcases ih hp with h₁ | h₁
        · exact Or.inl h₁
        · exact Or.inr (List.mem_cons_of_mem _ h₁)

theorem alookup_mem {α : Type} (k : Nat) (l : List (Nat × α)) (v : α)
    (hl : alookup k l = some v) : (k, v) ∈ l := by
  induction l with
  | nil => simp [alookup] at hl
  | cons q rest ih =>
    obtain ⟨k₂, v₂⟩ := q
    by_cases hk : k = k₂
    · simp [alookup, hk] at hl
      simp [hk, hl]
    · simp [alookup, hk] at hl
      exact List.mem_cons_of_mem _ (ih hl)

theorem aupdate_idem {α : Type} (k : Nat) (v : α) (l : List (Nat × α)) :
    aupdate k v (aupdate k v l) = aupdate k v l := by
  induction l with
  | nil => simp [aupdate]
  | cons q rest ih =>
    obtain ⟨k₂, v₂⟩ := q
    by_cases hk : k = k₂
    · simp [aupdate, hk]
    · simp [aupdate, hk, ih]

/-! ### Branch computation lemmas for `createRegularWeakReferenceImpl` -/

/-- A `create` call outside the runnable thread state fails the assertion. -/
theorem create_not_runnable (o : ObjId) (s : MMState) :
    mm.createRegularWeakReferenceImpl ThreadState.kNative o s =
      Except.error "AssertThreadState: kRunnable" := by
  simp [mm.createRegularWeakReferenceImpl]

/-- Fast path: an already-cached handle is returned with the state untouched. -/
theorem create_fast (o : ObjId) (s : MMState) (e : ExtraObjectData) (w : HandleId)
    (he : alookup o s.extras = some e) (hc : e.regularWeakReferenceImpl = some w) :
    mm.createRegularWeakReferenceImpl ThreadState.kRunnable o s = Except.ok (w, s) := by
  simp [mm.createRegularWeakReferenceImpl, mm.GetOrInstall, he,
    mm.GetRegularWeakReferenceImpl, hc]

/-- Slow path with an already-present (but empty) side-table entry: a fresh
handle is allocated, installed and returned. -/
theorem create_slow_present (o : ObjId) (s : MMState) (e : ExtraObjectData)
    (he : alookup o s.extras = some e) (hc : e.regularWeakReferenceImpl = none) :
    mm.createRegularWeakReferenceImpl ThreadState.kRunnable o s =
      Except.ok (s.nextHandle,
        ⟨aupdate o ⟨some s.nextHandle⟩ s.extras,
         aupdate s.nextHandle ⟨s.nextHandle, some o⟩ s.handles,
         s.nextHandle + 1⟩) := by
  simp [mm.createRegularWeakReferenceImpl, mm.GetOrInstall, he,
    mm.GetRegularWeakReferenceImpl, hc, mm.makeRegularWeakReferenceImpl,
    mm.GetOrSetRegularWeakReferenceImpl]

/-- Slow path with no side-table entry yet: the entry is installed, then a
fresh handle is allocated, installed and returned. -/
theorem create_slow_absent (o : ObjId) (s : MMState)
    (he : alookup o s.extras = none) :
    mm.createRegularWeakReferenceImpl ThreadState.kRunnable o s =
      Except.ok (s.nextHandle,
        ⟨aupdate o ⟨some s.nextHandle⟩ (aupdate o ⟨none⟩ s.extras),
         aupdate s.nextHandle ⟨s.nextHandle, some o⟩ s.handles,
         s.nextHandle + 1⟩) := by
  simp [mm.createRegularWeakReferenceImpl, mm.GetOrInstall, he,
    mm.GetRegularWeakReferenceImpl, mm.makeRegularWeakReferenceImpl,
    mm.GetOrSetRegularWeakReferenceImpl, alookup_aupdate_self]

/-- Exhaustive description of how one step may change the handle table: either
it is untouched (with the counter also untouched), or a fresh handle is
appended by `create` (counter bumped), or `dispose` rewrites one existing
handle's `referred` to `none` (counter untouched). -/
theorem stepOp_handles_cases (s : MMState) (op : Op) :
    ((stepOp s op).handles = s.handles ∧ (stepOp s op).nextHandle = s.nextHandle)
    ∨ (∃ o, (stepOp s op).handles = aupdate s.nextHandle ⟨s.nextHandle, some o⟩ s.handles
        ∧ (stepOp s op).nextHandle = s.nextHandle + 1)
    ∨ (∃ h w, alookup h s.handles = some w
        ∧ (stepOp s op).handles = aupdate h ⟨w.header, none⟩ s.handles
        ∧ (stepOp s op).nextHandle = s.nextHandle) := by
  cases op with
  | create ts o =>
    cases ts with
    | kNative => simp [stepOp, create_not_runnable]
    | kRunnable =>
      cases he : alookup o s.extras with
      | some e =>
        cases hc : e.regularWeakReferenceImpl with
        | some w => simp [stepOp, create_fast o s e w he hc]
        | none =>
          refine Or.inr (Or.inl ⟨o, ?_⟩)
          simp [stepOp, create_slow_present o s e he hc]
      | none =>
        refine Or.inr (Or.inl ⟨o, ?_⟩)
        simp [stepOp, create_slow_absent o s he]
  | dispose h =>
    cases hl : alookup h s.handles with
    | none => simp [stepOp, mm.disposeRegularWeakReferenceImpl, hl]
    | some w =>
      refine Or.inr (Or.inr ⟨h, w, hl, ?_⟩)
      simp [stepOp, mm.disposeRegularWeakReferenceImpl, hl]
  | deref h => simp [stepOp]
  | peek h => simp [stepOp]

/-! ### Invariant preservation -/

/-- Well-formedness of the allocation counter is preserved by every step. -/
theorem wfB_stepOp (s : MMState) (op : Op) (hwf : wfB s = true) :
    wfB (stepOp s op) = true := by
  have hall : ∀ p ∈ s.handles, p.1 < s.nextHandle := by
    intro p hp
    simpa using List.all_eq_true.mp hwf p hp
  rcases stepOp_handles_cases s op with ⟨hh, hn⟩ | ⟨o, hh, hn⟩ | ⟨h, w, hl, hh, hn⟩
  · simp only [wfB, hh, hn]
    exact hwf
  · simp only [wfB, hh, hn, List.all_eq_true]
    intro p hp
    rcases mem_aupdate _ _ _ _ hp with hpe | hpe
    · simp [hpe]
    · have h₂ := hall p hpe
      simpa using Nat.lt_succ_of_lt h₂
  · simp only [wfB, hh, hn, List.all_eq_true]
    intro p hp
    rcases mem_aupdate _ _ _ _ hp with hpe | hpe
    · have h₂ := hall _ (alookup_mem _ _ _ hl)
      simpa [hpe] using h₂
    · have h₂ := hall p hpe
      simpa using h₂

/-- Well-formedness is preserved by whole runs. -/
theorem wfB_run (ops : List Op) (s : MMState) (hwf : wfB s = true) :
    wfB (run s ops) = true := by
  induction ops generalizing s with
  | nil => exact hwf
  | cons op rest ih => exact ih (stepOp s op) (wfB_stepOp s op hwf)

/-- Once the side table caches a handle for an object, every later state still
caches that same handle: no operation ever removes or replaces a cached
handle. -/
theorem cached_stepOp (s : MMState) (op : Op) (o : ObjId) (e : ExtraObjectData)
    (h : HandleId) (he : alookup o s.extras = some e)
    (hc : e.regularWeakReferenceImpl = some h) :
    ∃ e₂, alookup o (stepOp s op).extras = some e₂
      ∧ e₂.regularWeakReferenceImpl = some h := by
  cases op with
  | create ts o₂ =>
    cases ts with
    | kNative => exact ⟨e, by simp [stepOp, create_not_runnable, he], hc⟩
    | kRunnable =>
      by_cases ho : o₂ = o
      · subst ho
        exact ⟨e, by simp [stepOp, create_fast o₂ s e h he hc, he], hc⟩
      · cases he₂ : alookup o₂ s.extras with
        | some e₂ =>
          cases hc₂ : e₂.regularWeakReferenceImpl with
          | some w₂ =>
            exact ⟨e, by simp [stepOp, create_fast o₂ s e₂ w₂ he₂ hc₂, he], hc⟩
          | none =>
            refine ⟨e, ?_, hc⟩
            simp only [stepOp, create_slow_present o₂ s e₂ he₂ hc₂]
            have hne : o ≠ o₂ := fun hx => ho hx.symm
            simpa [alookup_aupdate_ne o₂ o _ _ hne] using he
        | none =>
          refine ⟨e, ?_, hc⟩
          simp only [stepOp, create_slow_absent o₂ s he₂]
          have hne : o ≠ o₂ := fun hx => ho hx.symm
          simpa [alookup_aupdate_ne o₂ o _ _ hne, alookup_aupdate_ne o₂ o _ _ hne]
            using he
  | dispose h₂ =>
    refine ⟨e, ?_, hc⟩
    simp only [stepOp, mm.disposeRegularWeakReferenceImpl]
    cases hl : alookup h₂ s.handles <;> simpa using he
  | deref h₂ => exact ⟨e, by simpa [stepOp] using he, hc⟩
  | peek h₂ => exact ⟨e, by simpa [stepOp] using he, hc⟩

/-- Run-level version of `cached_stepOp`. -/
theorem cached_run (ops : List Op) (s : MMState) (o : ObjId) (e : ExtraObjectData)
    (h : HandleId) (he : alookup o s.extras = some e)
    (hc : e.regularWeakReferenceImpl = some h) :
    ∃ e₂, alookup o (run s ops).extras = some e₂
      ∧ e₂.regularWeakReferenceImpl = some h := by
  induction ops generalizing s e with
  | nil => exact ⟨e, he, hc⟩
  | cons op rest ih =>
    obtain ⟨e₂, he₂, hc₂⟩ := cached_stepOp s op o e h he hc
    exact ih (stepOp s op) e₂ he₂ hc₂

/-- Once a handle's `referred` field is `none`, it stays `none` after any
step: fresh allocations never reuse an existing identity (well-formedness) and
`dispose` only writes `none`. -/
theorem cleared_stepOp (s : MMState) (op : Op) (h : HandleId)
    (w : RegularWeakReferenceImpl) (hwf : wfB s = true)
    (hl : alookup h s.handles = some w) (hr : w.referred = none) :
    ∃ w₂, alookup h (stepOp s op).handles = some w₂ ∧ w₂.referred = none := by
  have hlt : h < s.nextHandle := by
    simpa using List.all_eq_true.mp hwf _ (alookup_mem _ _ _ hl)
  rcases stepOp_handles_cases s op with ⟨hh, _⟩ | ⟨o, hh, _⟩ | ⟨h₂, w₂, hl₂, hh, _⟩
  · exact ⟨w, by rw [hh]; exact hl, hr⟩
  · refine ⟨w, ?_, hr⟩
    rw [hh]
    have hne : h ≠ s.nextHandle := Nat.ne_of_lt hlt
    rw [alookup_aupdate_ne _ _ _ _ hne]
    exact hl
  · by_cases hhh : h = h₂
    · subst hhh
      exact ⟨⟨w₂.header, none⟩, by rw [hh]; exact alookup_aupdate_self _ _ _, rfl⟩
    · refine ⟨w, ?_, hr⟩
      rw [hh, alookup_aupdate_ne _ _ _ _ hhh]
      exact hl

/-- Run-level version of `cleared_stepOp`. -/
theorem cleared_run (ops : List Op) (s : MMState) (h : HandleId)
    (w : RegularWeakReferenceImpl) (hwf : wfB s = true)
    (hl : alookup h s.handles = some w) (hr : w.referred = none) :
    ∃ w₂, alookup h (run s ops).handles = some w₂ ∧ w₂.referred = none := by
  induction ops generalizing s w with
  | nil => exact ⟨w, hl, hr⟩
  | cons op rest ih =>
    obtain ⟨w₂, hl₂, hr₂⟩ := cleared_stepOp s op h w hwf hl hr
    exact ih (stepOp s op) w₂ (wfB_stepOp s op hwf) hl₂ hr₂

/-- A live handle's `referred` value survives any step other than a `dispose`
of that very handle. -/
theorem live_stepOp (s : MMState) (op : Op) (h : HandleId)
    (w : RegularWeakReferenceImpl) (o : ObjId) (hwf : wfB s = true)
    (hl : alookup h s.handles = some w) (hr : w.referred = some o)
    (hnd : op ≠ Op.dispose h) :
    ∃ w₂, alookup h (stepOp s op).handles = some w₂ ∧ w₂.referred = some o := by
  have hlt : h < s.nextHandle := by
    simpa using List.all_eq_true.mp hwf _ (alookup_mem _ _ _ hl)
  cases op with
  | create ts o₂ =>
    cases ts with
    | kNative => exact ⟨w, by simpa [stepOp, create_not_runnable] using hl, hr⟩
    | kRunnable =>
      cases he₂ : alookup o₂ s.extras with
      | some e₂ =>
        cases hc₂ : e₂.regularWeakReferenceImpl with
        | some w₃ =>
          exact ⟨w, by simpa [stepOp, create_fast o₂ s e₂ w₃ he₂ hc₂] using hl, hr⟩
        | none =>
          refine ⟨w, ?_, hr⟩
          simp only [stepOp, create_slow_present o₂ s e₂ he₂ hc₂]
          rw [alookup_aupdate_ne _ _ _ _ (Nat.ne_of_lt hlt)]
          exact hl
      | none =>
        refine ⟨w, ?_, hr⟩
        simp only [stepOp, create_slow_absent o₂ s he₂]
        rw [alookup_aupdate_ne _ _ _ _ (Nat.ne_of_lt hlt)]
        exact hl
  | dispose h₂ =>
    have hne : h ≠ h₂ := fun hx => hnd (by rw [hx])
    refine ⟨w, ?_, hr⟩
    simp only [stepOp, mm.disposeRegularWeakReferenceImpl]
    cases hl₂ : alookup h₂ s.handles with
    | none => exact hl
    | some w₂ =>
      simp only
      rw [alookup_aupdate_ne _ _ _ _ hne]
      exact hl
  | deref h₂ => exact ⟨w, by simpa [stepOp] using hl, hr⟩
  | peek h₂ => exact ⟨w, by simpa [stepOp] using hl, hr⟩

/-- Run-level version of `live_stepOp`. -/
theorem live_run (ops : List Op) (s : MMState) (h : HandleId)
    (w : RegularWeakReferenceImpl) (o : ObjId) (hwf : wfB s = true)
    (hl : alookup h s.handles = some w) (hr : w.referred = some o)
    (hnd : Op.dispose h ∉ ops) :
    ∃ w₂, alookup h (run s ops).handles = some w₂ ∧ w₂.referred = some o := by
  induction ops generalizing s w with
  | nil => exact ⟨w, hl, hr⟩
  | cons op rest ih =>
    have hop : op ≠ Op.dispose h := fun hx => hnd (by rw [hx]; exact List.mem_cons_self _ _)
    have hrest : Op.dispose h ∉ rest := fun hx => hnd (List.mem_cons_of_mem _ hx)
    obtain ⟨w₂, hl₂, hr₂⟩ := live_stepOp s op h w o hwf hl hr hop
    exact ih (stepOp s op) w₂ (wfB_stepOp s op hwf) hl₂ hr₂ hrest

/-- A successful `create` leaves the returned handle cached in the side-table
entry of its object. -/
theorem create_ok_cached (ts : ThreadState) (o : ObjId) (s s₁ : MMState) (h₁ : HandleId)
    (hc : mm.createRegularWeakReferenceImpl ts o s = Except.ok (h₁, s₁)) :
    ∃ e, alookup o s₁.extras = some e ∧ e.regularWeakReferenceImpl = some h₁ := by
  cases ts with
  | kNative => simp [create_not_runnable] at hc
  | kRunnable =>
    cases he : alookup o s.extras with
    | some e =>
      cases hcc : e.regularWeakReferenceImpl with
      | some w =>
        rw [create_fast o s e w he hcc] at hc
        simp only [Except.ok.injEq, Prod.mk.injEq] at hc
        obtain ⟨hw, hs⟩ := hc
        subst hw
        subst hs
        exact ⟨e, he, hcc⟩
      | none =>
        rw [create_slow_present o s e he hcc] at hc
        simp only [Except.ok.injEq, Prod.mk.injEq] at hc
        obtain ⟨hw, hs⟩ := hc
        subst hw
        subst hs
        exact ⟨⟨some s.nextHandle⟩, alookup_aupdate_self _ _ _, rfl⟩
    | none =>
      rw [create_slow_absent o s he] at hc
      simp only [Except.ok.injEq, Prod.mk.injEq] at hc
      obtain ⟨hw, hs⟩ := hc
      subst hw
      subst hs
      exact ⟨⟨some s.nextHandle⟩, alookup_aupdate_self _ _ _, rfl⟩

/-- Under the live-cache invariant, a successful `create` returns a handle
whose `referred` field holds the requested object. -/
theorem create_ok_live (ts : ThreadState) (o : ObjId) (s s₁ : MMState) (h : HandleId)
    (hlive : liveCacheB s = true)
    (hc : mm.createRegularWeakReferenceImpl ts o s = Except.ok (h, s₁)) :
    ∃ w, alookup h s₁.handles = some w ∧ w.referred = some o := by
  cases ts with
  | kNative => simp [create_not_runnable] at hc
  | kRunnable =>
    cases he : alookup o s.extras with
    | some e =>
      cases hcc : e.regularWeakReferenceImpl with
      | some w =>
        rw [create_fast o s e w he hcc] at hc
        simp only [Except.ok.injEq, Prod.mk.injEq] at hc
        obtain ⟨hw, hs⟩ := hc
        subst hs
        rw [← hw]
        have hent := List.all_eq_true.mp hlive (o, e) (alookup_mem _ _ _ he)
        simp only [hcc] at hent
        cases hl : alookup w s.handles with
        | none => rw [hl] at hent; simp at hent
        | some w₂ =>
          rw [hl] at hent
          simp only [beq_iff_eq] at hent
          exact ⟨w₂, rfl, hent⟩
      | none =>
        rw [create_slow_present o s e he hcc] at hc
        simp only [Except.ok.injEq, Prod.mk.injEq] at hc
        obtain ⟨hw, hs⟩ := hc
        subst hw
        subst hs
        exact ⟨⟨s.nextHandle, some o⟩, alookup_aupdate_self _ _ _, rfl⟩
    | none =>
      rw [create_slow_absent o s he] at hc
      simp only [Except.ok.injEq, Prod.mk.injEq] at hc
      obtain ⟨hw, hs⟩ := hc
      subst hw
      subst hs
      exact ⟨⟨s.nextHandle, some o⟩, alookup_aupdate_self _ _ _, rfl⟩

/-! ### Write-log computation lemmas -/

/-- The instrumented step agrees with the plain step on the resulting state. -/
theorem stepOpW_fst (s : MMState) (op : Op) : (stepOpW s op).1 = stepOp s op := by
  cases op with
  | create ts o =>
    cases hcr : mm.createRegularWeakReferenceImpl ts o s with
    | error msg => simp [stepOpW, stepOp, hcr]
    | ok r =>
      cases hgw : mm.GetRegularWeakReferenceImpl (mm.GetOrInstall o s).1 with
      | some w => simp [stepOpW, stepOp, hcr, hgw]
      | none => simp [stepOpW, stepOp, hcr, hgw]
  | dispose h =>
    cases hl : alookup h s.handles <;> simp [stepOpW, stepOp, hl]
  | deref h => rfl
  | peek h => rfl

theorem stepOpW_deref (s : MMState) (h : HandleId) : stepOpW s (Op.deref h) = (s, []) := rfl

theorem stepOpW_peek (s : MMState) (h : HandleId) : stepOpW s (Op.peek h) = (s, []) := rfl

theorem stepOpW_dispose_absent (s : MMState) (h : HandleId)
    (hl : alookup h s.handles = none) : stepOpW s (Op.dispose h) = (s, []) := by
  simp [stepOpW, mm.disposeRegularWeakReferenceImpl, hl]

theorem stepOpW_dispose_present (s : MMState) (h : HandleId) (w : RegularWeakReferenceImpl)
    (hl : alookup h s.handles = some w) :
    stepOpW s (Op.dispose h) = (mm.disposeRegularWeakReferenceImpl h s, [⟨h, none⟩]) := by
  simp [stepOpW, hl]

theorem stepOpW_create_native (s : MMState) (o : ObjId) :
    stepOpW s (Op.create ThreadState.kNative o) = (s, []) := by
  simp [stepOpW, create_not_runnable]

theorem stepOpW_create_fast (s : MMState) (o : ObjId) (e : ExtraObjectData) (w : HandleId)
    (he : alookup o s.extras = some e) (hcc : e.regularWeakReferenceImpl = some w) :
    stepOpW s (Op.create ThreadState.kRunnable o) = (s, []) := by
  simp [stepOpW, create_fast o s e w he hcc, mm.GetOrInstall, he,
    mm.GetRegularWeakReferenceImpl, hcc]

theorem stepOpW_create_slow_present (s : MMState) (o : ObjId) (e : ExtraObjectData)
    (he : alookup o s.extras = some e) (hcc : e.regularWeakReferenceImpl = none) :
    stepOpW s (Op.create ThreadState.kRunnable o) =
      (⟨aupdate o ⟨some s.nextHandle⟩ s.extras,
        aupdate s.nextHandle ⟨s.nextHandle, some o⟩ s.handles,
        s.nextHandle + 1⟩, [⟨s.nextHandle, some o⟩]) := by
  simp [stepOpW, create_slow_present o s e he hcc, mm.GetOrInstall, he,
    mm.GetRegularWeakReferenceImpl, hcc]

theorem stepOpW_create_slow_absent (s : MMState) (o : ObjId)
    (he : alookup o s.extras = none) :
    stepOpW s (Op.create ThreadState.kRunnable o) =
      (⟨aupdate o ⟨some s.nextHandle⟩ (aupdate o ⟨none⟩ s.extras),
        aupdate s.nextHandle ⟨s.nextHandle, some o⟩ s.handles,
        s.nextHandle + 1⟩, [⟨s.nextHandle, some o⟩]) := by
  simp [stepOpW, create_slow_absent o s he, mm.GetOrInstall, he,
    mm.GetRegularWeakReferenceImpl]

theorem runW_cons (s : MMState) (op : Op) (rest : List Op) :
    (runW s (op :: rest)).2 = (stepOpW s op).2 ++ (runW (stepOpW s op).1 rest).2 := rfl

theorem logOf_append (h : HandleId) (a b : List WriteEvent) :
    logOf h (a ++ b) = logOf h a ++ logOf h b := List.filter_append a b

theorem logOf_nil (h : HandleId) : logOf h [] = [] := rfl

theorem logOf_single_self (h : HandleId) (v : Option ObjId) :
    logOf h [⟨h, v⟩] = [⟨h, v⟩] := by simp [logOf]

theorem logOf_single_ne (h h₂ : HandleId) (v : Option ObjId) (hne : h₂ ≠ h) :
    logOf h [⟨h₂, v⟩] = [] := by simp [logOf, hne]

/-- Shape of the writes to one handle's `referred` field over any run, split
by whether the handle exists at the start.  From a state where handle `h` is
not yet allocated, given at most one `dispose h` in the trace, the `referred`
field of `h` receives at most two writes: first the non-null creation write,
then possibly the null disposal write.  From a state where `h` exists, only
the disposal write can still happen. -/
theorem writeLog_cases (ops : List Op) (h : HandleId) (s : MMState)
    (hwf : wfB s = true) :
    (alookup h s.handles = none → List.count (Op.dispose h) ops ≤ 1 →
      logOf h (runW s ops).2 = []
      ∨ (∃ o, logOf h (runW s ops).2 = [⟨h, some o⟩])
      ∨ (∃ o, logOf h (runW s ops).2 = [⟨h, some o⟩, ⟨h, none⟩]))
    ∧ ((∃ w, alookup h s.handles = some w) → List.count (Op.dispose h) ops ≤ 1 →
      logOf h (runW s ops).2 = [] ∨ logOf h (runW s ops).2 = [⟨h, none⟩])
    ∧ ((∃ w, alookup h s.handles = some w) → List.count (Op.dispose h) ops = 0 →
      logOf h (runW s ops).2 = []) := by
  induction ops generalizing s with
  | nil => exact ⟨fun _ _ => Or.inl rfl, fun _ _ => Or.inl rfl, fun _ _ => rfl⟩
  | cons op rest ih =>
    have hwf₂ : wfB (stepOpW s op).1 = true := by
      rw [stepOpW_fst]
      exact wfB_stepOp s op hwf
    cases op with
    | deref h₂ =>
      have hgoal : (runW s (Op.deref h₂ :: rest)).2 = [] ++ (runW s rest).2 := by
        rw [runW_cons, stepOpW_deref]
      have hcnt : List.count (Op.dispose h) (Op.deref h₂ :: rest)
          = List.count (Op.dispose h) rest := List.count_cons_of_ne (by simp) rest
      refine ⟨?_, ?_, ?_⟩
      · intro hl hc
        rw [hcnt] at hc
        rw [hgoal, List.nil_append]
        exact (ih s hwf).1 hl hc
      · intro hl hc
        rw [hcnt] at hc
        rw [hgoal, List.nil_append]
        exact (ih s hwf).2.1 hl hc
      · intro hl hc
        rw [hcnt] at hc
        rw [hgoal, List.nil_append]
        exact (ih s hwf).2.2 hl hc
    | peek h₂ =>
      have hgoal : (runW s (Op.peek h₂ :: rest)).2 = [] ++ (runW s rest).2 := by
        rw [runW_cons, stepOpW_peek]
      have hcnt : List.count (Op.dispose h) (Op.peek h₂ :: rest)
          = List.count (Op.dispose h) rest := List.count_cons_of_ne (by simp) rest
      refine ⟨?_, ?_, ?_⟩
      · intro hl hc
        rw [hcnt] at hc
        rw [hgoal, List.nil_append]
        exact (ih s hwf).1 hl hc
      · intro hl hc
        rw [hcnt] at hc
        rw [hgoal, List.nil_append]
        exact (ih s hwf).2.1 hl hc
      · intro hl hc
        rw [hcnt] at hc
        rw [hgoal, List.nil_append]
        exact (ih s hwf).2.2 hl hc
    | dispose h₂ =>
      by_cases hhh : h₂ = h
      · subst hhh
        have hcnt : List.count (Op.dispose h₂) (Op.dispose h₂ :: rest)
            = List.count (Op.dispose h₂) rest + 1 := List.count_cons_self _ _
        refine ⟨?_, ?_, ?_⟩
        · intro hl hc
          have hgoal : (runW s (Op.dispose h₂ :: rest)).2 = [] ++ (runW s rest).2 := by
            rw [runW_cons, stepOpW_dispose_absent s h₂ hl]
          rw [hcnt] at hc
          rw [hgoal, List.nil_append]
          exact (ih s hwf).1 hl (by omega)
        · rintro ⟨w, hl⟩ hc
          have hgoal : (runW s (Op.dispose h₂ :: rest)).2
              = [⟨h₂, none⟩] ++ (runW (mm.disposeRegularWeakReferenceImpl h₂ s) rest).2 := by
            rw [runW_cons, stepOpW_dispose_present s h₂ w hl]
          rw [hcnt] at hc
          have hwfS : wfB (mm.disposeRegularWeakReferenceImpl h₂ s) = true := by
            have := hwf₂
            rwa [stepOpW_dispose_present s h₂ w hl] at this
          have hlS : alookup h₂ (mm.disposeRegularWeakReferenceImpl h₂ s).handles
              = some ⟨w.header, none⟩ := by
            simp [mm.disposeRegularWeakReferenceImpl, hl, alookup_aupdate_self]
          have hrest := (ih (mm.disposeRegularWeakReferenceImpl h₂ s) hwfS).2.2
            ⟨_, hlS⟩ (by omega)
          rw [hgoal, logOf_append, logOf_single_self, hrest]
          exact Or.inr rfl
        · rintro ⟨w, hl⟩ hc
          rw [hcnt] at hc
          omega
      · have hcnt : List.count (Op.dispose h) (Op.dispose h₂ :: rest)
            = List.count (Op.dispose h) rest :=
          List.count_cons_of_ne (fun hx => hhh ((Op.dispose.inj hx).symm)) rest
        cases hl₂ : alookup h₂ s.handles with
        | none =>
          have hgoal : (runW s (Op.dispose h₂ :: rest)).2 = [] ++ (runW s rest).2 := by
            rw [runW_cons, stepOpW_dispose_absent s h₂ hl₂]
          refine ⟨?_, ?_, ?_⟩
          · intro hl hc
            rw [hcnt] at hc
            rw [hgoal, List.nil_append]
            exact (ih s hwf).1 hl hc
          · intro hl hc
            rw [hcnt] at hc
            rw [hgoal, List.nil_append]
            exact (ih s hwf).2.1 hl hc
          · intro hl hc
            rw [hcnt] at hc
            rw [hgoal, List.nil_append]
            exact (ih s hwf).2.2 hl hc
        | some w₂ =>
          have hgoal : (runW s (Op.dispose h₂ :: rest)).2
              = [⟨h₂, none⟩] ++ (runW (mm.disposeRegularWeakReferenceImpl h₂ s) rest).2 := by
            rw [runW_cons, stepOpW_dispose_present s h₂ w₂ hl₂]
          have hwfS : wfB (mm.disposeRegularWeakReferenceImpl h₂ s) = true := by
            have := hwf₂
            rwa [stepOpW_dispose_present s h₂ w₂ hl₂] at this
          have hkeep : alookup h (mm.disposeRegularWeakReferenceImpl h₂ s).handles
              = alookup h s.handles := by
            simp only [mm.disposeRegularWeakReferenceImpl, hl₂]
            exact alookup_aupdate_ne _ _ _ _ (fun hx => hhh hx.symm)
          refine ⟨?_, ?_, ?_⟩
          · intro hl hc
            rw [hcnt] at hc
            rw [hgoal, logOf_append, logOf_single_ne h h₂ none hhh, List.nil_append]
            exact (ih _ hwfS).1 (hkeep.trans hl) hc
          · rintro ⟨w, hl⟩ hc
            rw [hcnt] at hc
            rw [hgoal, logOf_append, logOf_single_ne h h₂ none hhh, List.nil_append]
            exact (ih _ hwfS).2.1 ⟨w, hkeep.trans hl⟩ hc
          · rintro ⟨w, hl⟩ hc
            rw [hcnt] at hc
            rw [hgoal, logOf_append, logOf_single_ne h h₂ none hhh, List.nil_append]
            exact (ih _ hwfS).2.2 ⟨w, hkeep.trans hl⟩ hc
    | create ts o =>
      have hcnt : List.count (Op.dispose h) (Op.create ts o :: rest)
          = List.count (Op.dispose h) rest := List.count_cons_of_ne (by simp) rest
      cases ts with
      | kNative =>
        have hgoal : (runW s (Op.create ThreadState.kNative o :: rest)).2
            = [] ++ (runW s rest).2 := by
          rw [runW_cons, stepOpW_create_native]
        refine ⟨?_, ?_, ?_⟩
        · intro hl hc
          rw [hcnt] at hc
          rw [hgoal, List.nil_append]
          exact (ih s hwf).1 hl hc
        · intro hl hc
          rw [hcnt] at hc
          rw [hgoal, List.nil_append]
          exact (ih s hwf).2.1 hl hc
        · intro hl hc
          rw [hcnt] at hc
          rw [hgoal, List.nil_append]
          exact (ih s hwf).2.2 hl hc
      | kRunnable =>
        cases he : alookup o s.extras with
        | some e =>
          cases hcc : e.regularWeakReferenceImpl with
          | some w₃ =>
            have hgoal : (runW s (Op.create ThreadState.kRunnable o :: rest)).2
                = [] ++ (runW s rest).2 := by
              rw [runW_cons, stepOpW_create_fast s o e w₃ he hcc]
            refine ⟨?_, ?_, ?_⟩
            · intro hl hc
              rw [hcnt] at hc
              rw [hgoal, List.nil_append]
              exact (ih s hwf).1 hl hc
            · intro hl hc
              rw [hcnt] at hc
              rw [hgoal, List.nil_append]
              exact (ih s hwf).2.1 hl hc
            · intro hl hc
              rw [hcnt] at hc
              rw [hgoal, List.nil_append]
              exact (ih s hwf).2.2 hl hc
          | none =>
            have hgoal : (runW s (Op.create ThreadState.kRunnable o :: rest)).2
                = [⟨s.nextHandle, some o⟩]
                  ++ (runW ⟨aupdate o ⟨some s.nextHandle⟩ s.extras,
                        aupdate s.nextHandle ⟨s.nextHandle, some o⟩ s.handles,
                        s.nextHandle + 1⟩ rest).2 := by
              rw [runW_cons, stepOpW_create_slow_present s o e he hcc]
            have hwfS : wfB (⟨aupdate o ⟨some s.nextHandle⟩ s.extras,
                aupdate s.nextHandle ⟨s.nextHandle, some o⟩ s.handles,
                s.nextHandle + 1⟩ : MMState) = true := by
              have := hwf₂
              rwa [stepOpW_create_slow_present s o e he hcc] at this
            refine ⟨?_, ?_, ?_⟩
            · intro hl hc
              rw [hcnt] at hc
              by_cases hn : s.nextHandle = h
              · have hlS : alookup h (aupdate s.nextHandle
                    ⟨s.nextHandle, some o⟩ s.handles) = some ⟨s.nextHandle, some o⟩ := by
                  rw [hn]
                  exact alookup_aupdate_self _ _ _
                have hsing : logOf h [(⟨s.nextHandle, some o⟩ : WriteEvent)]
                    = [⟨h, some o⟩] := by
                  rw [hn]
                  exact logOf_single_self h (some o)
                have hrest := (ih _ hwfS).2.1 ⟨_, hlS⟩ hc
                rw [hgoal, logOf_append, hsing]
                rcases hrest with hr | hr
                · rw [hr]
                  exact Or.inr (Or.inl ⟨o, rfl⟩)
                · rw [hr]
                  exact Or.inr (Or.inr ⟨o, rfl⟩)
              · have hlS : alookup h (aupdate s.nextHandle
                    ⟨s.nextHandle, some o⟩ s.handles) = none := by
                  rw [alookup_aupdate_ne _ _ _ _ (fun hx => hn hx.symm)]
                  exact hl
                rw [hgoal, logOf_append, logOf_single_ne h s.nextHandle (some o) hn,
                  List.nil_append]
                exact (ih _ hwfS).1 hlS hc
            · rintro ⟨w, hl⟩ hc
              rw [hcnt] at hc
              have hlt : h < s.nextHandle := by
                simpa using List.all_eq_true.mp hwf _ (alookup_mem _ _ _ hl)
              have hn : s.nextHandle ≠ h := Ne.symm (Nat.ne_of_lt hlt)
              have hlS : alookup h (aupdate s.nextHandle
                  ⟨s.nextHandle, some o⟩ s.handles) = some w := by
                rw [alookup_aupdate_ne _ _ _ _ (fun hx => hn hx.symm)]
                exact hl
              rw [hgoal, logOf_append, logOf_single_ne h s.nextHandle (some o) hn,
                List.nil_append]
              exact (ih _ hwfS).2.1 ⟨w, hlS⟩ hc
            · rintro ⟨w, hl⟩ hc
              rw [hcnt] at hc
              have hlt : h < s.nextHandle := by
                simpa using List.all_eq_true.mp hwf _ (alookup_mem _ _ _ hl)
              have hn : s.nextHandle ≠ h := Ne.symm (Nat.ne_of_lt hlt)
              have hlS : alookup h (aupdate s.nextHandle
                  ⟨s.nextHandle, some o⟩ s.handles) = some w := by
                rw [alookup_aupdate_ne _ _ _ _ (fun hx => hn hx.symm)]
                exact hl
              rw [hgoal, logOf_append, logOf_single_ne h s.nextHandle (some o) hn,
                List.nil_append]
              exact (ih _ hwfS).2.2 ⟨w, hlS⟩ hc
        | none =>
          have hgoal : (runW s (Op.create ThreadState.kRunnable o :: rest)).2
              = [⟨s.nextHandle, some o⟩]
                ++ (runW ⟨aupdate o ⟨some s.nextHandle⟩ (aupdate o ⟨none⟩ s.extras),
                      aupdate s.nextHandle ⟨s.nextHandle, some o⟩ s.handles,
                      s.nextHandle + 1⟩ rest).2 := by
            rw [runW_cons, stepOpW_create_slow_absent s o he]
          have hwfS : wfB (⟨aupdate o ⟨some s.nextHandle⟩ (aupdate o ⟨none⟩ s.extras),
              aupdate s.nextHandle ⟨s.nextHandle, some o⟩ s.handles,
              s.nextHandle + 1⟩ : MMState) = true := by
            have := hwf₂
            rwa [stepOpW_create_slow_absent s o he] at this
          refine ⟨?_, ?_, ?_⟩
          · intro hl hc
            rw [hcnt] at hc
            by_cases hn : s.nextHandle = h
            · have hlS : alookup h (aupdate s.nextHandle
                  ⟨s.nextHandle, some o⟩ s.handles) = some ⟨s.nextHandle, some o⟩ := by
                rw [hn]
                exact alookup_aupdate_self _ _ _
              have hsing : logOf h [(⟨s.nextHandle, some o⟩ : WriteEvent)]
                  = [⟨h, some o⟩] := by
                rw [hn]
                exact logOf_single_self h (some o)
              have hrest := (ih _ hwfS).2.1 ⟨_, hlS⟩ hc
              rw [hgoal, logOf_append, hsing]
              rcases hrest with hr | hr
              · rw [hr]
                exact Or.inr (Or.inl ⟨o, rfl⟩)
              · rw [hr]
                exact Or.inr (Or.inr ⟨o, rfl⟩)
            · have hlS : alookup h (aupdate s.nextHandle
                  ⟨s.nextHandle, some o⟩ s.handles) = none := by
                rw [alookup_aupdate_ne _ _ _ _ (fun hx => hn hx.symm)]
                exact hl
              rw [hgoal, logOf_append, logOf_single_ne h s.nextHandle (some o) hn,
                List.nil_append]
              exact (ih _ hwfS).1 hlS hc
          · rintro ⟨w, hl⟩ hc
            rw [hcnt] at hc
            have hlt : h < s.nextHandle := by
              simpa using List.all_eq_true.mp hwf _ (alookup_mem _ _ _ hl)
            have hn : s.nextHandle ≠ h := Ne.symm (Nat.ne_of_lt hlt)
            have hlS : alookup h (aupdate s.nextHandle
                ⟨s.nextHandle, some o⟩ s.handles) = some w := by
              rw [alookup_aupdate_ne _ _ _ _ (fun hx => hn hx.symm)]
              exact hl
            rw [hgoal, logOf_append, logOf_single_ne h s.nextHandle (some o) hn,
              List.nil_append]
            exact (ih _ hwfS).2.1 ⟨w, hlS⟩ hc
          · rintro ⟨w, hl⟩ hc
            rw [hcnt] at hc
            have hlt : h < s.nextHandle := by
              simpa using List.all_eq_true.mp hwf _ (alookup_mem _ _ _ hl)
            have hn : s.nextHandle ≠ h := Ne.symm (Nat.ne_of_lt hlt)
            have hlS : alookup h (aupdate s.nextHandle
                ⟨s.nextHandle, some o⟩ s.handles) = some w := by
              rw [alookup_aupdate_ne _ _ _ _ (fun hx => hn hx.symm)]
              exact hl
            rw [hgoal, logOf_append, logOf_single_ne h s.nextHandle (some o) hn,
              List.nil_append]
            exact (ih _ hwfS).2.2 ⟨w, hlS⟩ hc

/-! ### Claim theorems -/

/-- C1: every call to `create(O)` returns the same `WeakReferenceImpl` handle.
Once `create(O)` succeeds with handle `h₁`, then after any further operations
the side table still associates exactly `h₁` with `O` (at most one observable
handle), and any later `create(O)` returns that same handle `h₁`. -/
theorem claim_create_idempotent (ts : ThreadState) (o : ObjId) (s s₁ : MMState)
    (h₁ : HandleId) (ops : List Op)
    (hc : mm.createRegularWeakReferenceImpl ts o s = Except.ok (h₁, s₁)) :
    (∃ e, alookup o (run s₁ ops).extras = some e ∧ e.regularWeakReferenceImpl = some h₁)
    ∧ ∃ s₂, mm.createRegularWeakReferenceImpl ThreadState.kRunnable o (run s₁ ops)
        = Except.ok (h₁, s₂) := by
  obtain ⟨e, he, hcc⟩ := create_ok_cached ts o s s₁ h₁ hc
  obtain ⟨e₂, he₂, hc₂⟩ := cached_run ops s₁ o e h₁ he hcc
  exact ⟨⟨e₂, he₂, hc₂⟩, ⟨run s₁ ops, create_fast o _ e₂ h₁ he₂ hc₂⟩⟩

/-- Witness for C1 at a concrete input. -/
theorem claim_create_idempotent_witness :
    (∃ e, alookup 0 (run ⟨[(0, ⟨some 0⟩)], [(0, ⟨0, some 0⟩)], 1⟩ [Op.dispose 0]).extras
        = some e ∧ e.regularWeakReferenceImpl = some 0)
    ∧ ∃ s₂, mm.createRegularWeakReferenceImpl ThreadState.kRunnable 0
        (run ⟨[(0, ⟨some 0⟩)], [(0, ⟨0, some 0⟩)], 1⟩ [Op.dispose 0]) = Except.ok (0, s₂) :=
  claim_create_idempotent ThreadState.kRunnable 0 initState _ 0 [Op.dispose 0] rfl

/-- C2: after `dispose(H)`, `dereference(H)` returns empty forever after —
the cleared state is terminal across any further operations. -/
theorem claim_dispose_terminal (h : HandleId) (s : MMState) (w : RegularWeakReferenceImpl)
    (ops : List Op) (hwf : wfB s = true) (hl : alookup h s.handles = some w) :
    mm.derefRegularWeakReferenceImpl h
      (run (mm.disposeRegularWeakReferenceImpl h s) ops) = none := by
  have hwf₂ : wfB (mm.disposeRegularWeakReferenceImpl h s) = true :=
    wfB_stepOp s (Op.dispose h) hwf
  have hl₂ : alookup h (mm.disposeRegularWeakReferenceImpl h s).handles
      = some ⟨w.header, none⟩ := by
    simp [mm.disposeRegularWeakReferenceImpl, hl, alookup_aupdate_self]
  obtain ⟨w₂, hl₃, hr₃⟩ := cleared_run ops _ h ⟨w.header, none⟩ hwf₂ hl₂ rfl
  simp [mm.derefRegularWeakReferenceImpl, hl₃, hr₃]

/-- Witness for C2 at a concrete input. -/
theorem claim_dispose_terminal_witness :
    mm.derefRegularWeakReferenceImpl 0
      (run (mm.disposeRegularWeakReferenceImpl 0 ⟨[], [(0, ⟨0, some 5⟩)], 1⟩)
        [Op.create ThreadState.kRunnable 9, Op.deref 0]) = none :=
  claim_dispose_terminal 0 ⟨[], [(0, ⟨0, some 5⟩)], 1⟩ ⟨0, some 5⟩
    [Op.create ThreadState.kRunnable 9, Op.deref 0] (by decide) (by decide)

/-- C3: if `H = create(O)` succeeds and `dispose(H)` is never called during
the following operations, `dereference(H)` returns `O` itself, not empty.
The hypotheses ask that the starting state is well formed and that no cached
handle has been cleared yet (no `dispose` before the `create` either). -/
theorem claim_deref_before_dispose (ts : ThreadState) (o : ObjId) (s s₁ : MMState)
    (h : HandleId) (ops : List Op) (hwf : wfB s = true) (hlive : liveCacheB s = true)
    (hc : mm.createRegularWeakReferenceImpl ts o s = Except.ok (h, s₁))
    (hnd : Op.dispose h ∉ ops) :
    mm.derefRegularWeakReferenceImpl h (run s₁ ops) = some o := by
  obtain ⟨w, hl, hr⟩ := create_ok_live ts o s s₁ h hlive hc
  have hstep : stepOp s (Op.create ts o) = s₁ := by
    simp [stepOp, hc]
  have hwf₁ : wfB s₁ = true := by
    rw [← hstep]
    exact wfB_stepOp s _ hwf
  obtain ⟨w₂, hl₂, hr₂⟩ := live_run ops s₁ h w o hwf₁ hl hr hnd
  simp [mm.derefRegularWeakReferenceImpl, hl₂, hr₂]

/-- Witness for C3 at a concrete input. -/
theorem claim_deref_before_dispose_witness :
    mm.derefRegularWeakReferenceImpl 0 (run ⟨[(5, ⟨some 0⟩)], [(0, ⟨0, some 5⟩)], 1⟩
      [Op.create ThreadState.kRunnable 5, Op.dispose 3]) = some 5 :=
  claim_deref_before_dispose ThreadState.kRunnable 5 initState _ 0
    [Op.create ThreadState.kRunnable 5, Op.dispose 3]
    (by decide) (by decide) rfl (by decide)

/-- C4: `dispose` unconditionally leaves `referred = null` (a dereference
right after any `dispose` returns empty), and `dispose` is idempotent:
disposing an already-disposed handle produces the identical state. -/
theorem claim_dispose_unconditional_idempotent (h : HandleId) (s : MMState) :
    mm.derefRegularWeakReferenceImpl h (mm.disposeRegularWeakReferenceImpl h s) = none
    ∧ mm.disposeRegularWeakReferenceImpl h (mm.disposeRegularWeakReferenceImpl h s)
      = mm.disposeRegularWeakReferenceImpl h s := by
  cases hl : alookup h s.handles with
  | none =>
    constructor
    · simp [mm.disposeRegularWeakReferenceImpl, hl, mm.derefRegularWeakReferenceImpl]
    · simp [mm.disposeRegularWeakReferenceImpl, hl]
  | some w =>
    constructor
    · simp [mm.disposeRegularWeakReferenceImpl, hl, mm.derefRegularWeakReferenceImpl,
        alookup_aupdate_self]
    · simp [mm.disposeRegularWeakReferenceImpl, hl, alookup_aupdate_self, aupdate_idem]

/-- C5: `create` asserts the calling thread is in the runnable mutator state:
outside that state it fails fatally (the assertion error), and under the
precondition it always returns a handle (the assertion branch is
unreachable). -/
theorem claim_create_requires_runnable (ts : ThreadState) (o : ObjId) (s : MMState) :
    (ts ≠ ThreadState.kRunnable →
      mm.createRegularWeakReferenceImpl ts o s
        = Except.error "AssertThreadState: kRunnable")
    ∧ (ts = ThreadState.kRunnable →
      ∃ r, mm.createRegularWeakReferenceImpl ts o s = Except.ok r) := by
  constructor
  · intro hne
    cases ts with
    | kRunnable => exact absurd rfl hne
    | kNative => exact create_not_runnable o s
  · intro heq
    subst heq
    cases he : alookup o s.extras with
    | some e =>
      cases hcc : e.regularWeakReferenceImpl with
      | some w => exact ⟨(w, s), create_fast o s e w he hcc⟩
      | none => exact ⟨_, create_slow_present o s e he hcc⟩
    | none => exact ⟨_, create_slow_absent o s he⟩

/-- Witness for C5 at concrete inputs. -/
theorem claim_create_requires_runnable_witness :
    mm.createRegularWeakReferenceImpl ThreadState.kNative 0 initState
      = Except.error "AssertThreadState: kRunnable"
    ∧ ∃ r, mm.createRegularWeakReferenceImpl ThreadState.kRunnable 0 initState
        = Except.ok r :=
  ⟨(claim_create_requires_runnable ThreadState.kNative 0 initState).1 (by decide),
   (claim_create_requires_runnable ThreadState.kRunnable 0 initState).2 rfl⟩

/-- C6: when the object's `ExtraObjectData` already caches a handle, `create`
returns that cached handle immediately with the state completely unchanged —
in particular no new `WeakReferenceImpl` is allocated (the allocation counter
and handle table are untouched). -/
theorem claim_create_fast_path_no_alloc (o : ObjId) (s : MMState) (e : ExtraObjectData)
    (h : HandleId) (he : alookup o s.extras = some e)
    (hcc : e.regularWeakReferenceImpl = some h) :
    mm.createRegularWeakReferenceImpl ThreadState.kRunnable o s = Except.ok (h, s) :=
  create_fast o s e h he hcc

/-- Witness for C6 at a concrete input. -/
theorem claim_create_fast_path_no_alloc_witness :
    mm.createRegularWeakReferenceImpl ThreadState.kRunnable 7
      ⟨[(7, ⟨some 3⟩)], [(3, ⟨3, some 7⟩)], 4⟩
      = Except.ok (3, ⟨[(7, ⟨some 3⟩)], [(3, ⟨3, some 7⟩)], 4⟩) :=
  claim_create_fast_path_no_alloc 7 _ ⟨some 3⟩ 3 (by decide) (by decide)

/-- C7: the slow path publishes the freshly allocated candidate through the
first-writer-wins `GetOrSetRegularWeakReferenceImpl` and returns exactly the
handle that ends up published: an already-installed handle wins and the
candidate is discarded with no state change; otherwise the candidate is
installed and returned; and `create`'s slow path returns precisely the result
of `GetOrSetRegularWeakReferenceImpl` applied to the fresh candidate. -/
theorem claim_create_publishes_via_getOrSet (o : ObjId) (cand : HandleId) (s : MMState)
    (e : ExtraObjectData) (he : alookup o s.extras = some e) :
    (∀ ex, e.regularWeakReferenceImpl = some ex →
      mm.GetOrSetRegularWeakReferenceImpl o cand s = (ex, s))
    ∧ (e.regularWeakReferenceImpl = none →
      mm.GetOrSetRegularWeakReferenceImpl o cand s
        = (cand, { s with extras := aupdate o ⟨some cand⟩ s.extras }))
    ∧ (e.regularWeakReferenceImpl = none →
      mm.createRegularWeakReferenceImpl ThreadState.kRunnable o s
        = Except.ok (mm.GetOrSetRegularWeakReferenceImpl o
            (mm.makeRegularWeakReferenceImpl o s).1
            (mm.makeRegularWeakReferenceImpl o s).2)) := by
  refine ⟨?_, ?_, ?_⟩
  · intro ex hcc
    simp [mm.GetOrSetRegularWeakReferenceImpl, he, hcc]
  · intro hcc
    simp [mm.GetOrSetRegularWeakReferenceImpl, he, hcc]
  · intro hcc
    rw [create_slow_present o s e he hcc]
    simp [mm.makeRegularWeakReferenceImpl, mm.GetOrSetRegularWeakReferenceImpl, he, hcc]

/-- Witness for C7 at concrete inputs: a losing candidate is discarded, and a
slow-path `create` returns the published result. -/
theorem claim_create_publishes_via_getOrSet_witness :
    mm.GetOrSetRegularWeakReferenceImpl 7 9 ⟨[(7, ⟨some 3⟩)], [], 4⟩
      = (3, ⟨[(7, ⟨some 3⟩)], [], 4⟩)
    ∧ mm.createRegularWeakReferenceImpl ThreadState.kRunnable 5 ⟨[(5, ⟨none⟩)], [], 0⟩
        = Except.ok (mm.GetOrSetRegularWeakReferenceImpl 5
            (mm.makeRegularWeakReferenceImpl 5 ⟨[(5, ⟨none⟩)], [], 0⟩).1
            (mm.makeRegularWeakReferenceImpl 5 ⟨[(5, ⟨none⟩)], [], 0⟩).2) :=
  ⟨(claim_create_publishes_via_getOrSet 7 9 _ ⟨some 3⟩ (by decide)).1 3 rfl,
   (claim_create_publishes_via_getOrSet 5 0 _ ⟨none⟩ (by decide)).2.2 rfl⟩

/-- C8: write discipline of the `referred` field.  Over any trace from the
initial state in which a handle is disposed at most once (the collector's
single-clearer contract), the writes to that handle's `referred` field are at
most two: first the non-null creation write, then possibly the null disposal
write — and in particular `referred` only ever holds null or the handle's
creation target.  `dereference` and the unsafe peek perform no write at
all. -/
theorem claim_referred_write_discipline (ops : List Op) (h : HandleId)
    (hd : List.count (Op.dispose h) ops ≤ 1) :
    (logOf h (runW initState ops).2 = []
      ∨ (∃ o, logOf h (runW initState ops).2 = [⟨h, some o⟩])
      ∨ (∃ o, logOf h (runW initState ops).2 = [⟨h, some o⟩, ⟨h, none⟩]))
    ∧ (∀ s₂ h₂, stepOpW s₂ (Op.deref h₂) = (s₂, [])
        ∧ stepOpW s₂ (Op.peek h₂) = (s₂, [])) :=
  ⟨(writeLog_cases ops h initState rfl).1 rfl hd, fun _ _ => ⟨rfl, rfl⟩⟩

/-- Witness for C8 at a concrete trace: one create and one dispose. -/
theorem claim_referred_write_discipline_witness :
    logOf 0 (runW initState [Op.create ThreadState.kRunnable 5, Op.dispose 0]).2 = []
    ∨ (∃ o, logOf 0 (runW initState [Op.create ThreadState.kRunnable 5, Op.dispose 0]).2
        = [⟨0, some o⟩])
    ∨ (∃ o, logOf 0 (runW initState [Op.create ThreadState.kRunnable 5, Op.dispose 0]).2
        = [⟨0, some o⟩, ⟨0, none⟩]) :=
  (claim_referred_write_discipline [Op.create ThreadState.kRunnable 5, Op.dispose 0] 0
    (by decide)).1

/-- C10: `dispose(H)` changes only `H.referred`: the side table (including the
cached handle slot), the allocation counter, the handle's identity header and
every other handle are left exactly as they were. -/
theorem claim_dispose_frame (h : HandleId) (s : MMState) (w : RegularWeakReferenceImpl)
    (hl : alookup h s.handles = some w) :
    (mm.disposeRegularWeakReferenceImpl h s).extras = s.extras
    ∧ (mm.disposeRegularWeakReferenceImpl h s).nextHandle = s.nextHandle
    ∧ alookup h (mm.disposeRegularWeakReferenceImpl h s).handles = some ⟨w.header, none⟩
    ∧ ∀ h₂, h₂ ≠ h → alookup h₂ (mm.disposeRegularWeakReferenceImpl h s).handles
        = alookup h₂ s.handles := by
  refine ⟨?_, ?_, ?_, ?_⟩
  · simp [mm.disposeRegularWeakReferenceImpl, hl]
  · simp [mm.disposeRegularWeakReferenceImpl, hl]
  · simp [mm.disposeRegularWeakReferenceImpl, hl, alookup_aupdate_self]
  · intro h₂ hne
    simp only [mm.disposeRegularWeakReferenceImpl, hl]
    exact alookup_aupdate_ne _ _ _ _ hne

/-- Witness for C10 at a concrete input. -/
theorem claim_dispose_frame_witness :
    (mm.disposeRegularWeakReferenceImpl 0
        ⟨[(5, ⟨some 0⟩)], [(0, ⟨0, some 5⟩), (1, ⟨1, some 6⟩)], 2⟩).extras
      = [(5, ⟨some 0⟩)]
    ∧ alookup 1 (mm.disposeRegularWeakReferenceImpl 0
        ⟨[(5, ⟨some 0⟩)], [(0, ⟨0, some 5⟩), (1, ⟨1, some 6⟩)], 2⟩).handles
      = alookup 1 [(0, (⟨0, some 5⟩ : RegularWeakReferenceImpl)), (1, ⟨1, some 6⟩)] :=
  ⟨(claim_dispose_frame 0 _ ⟨0, some 5⟩ (by decide)).1,
   (claim_dispose_frame 0 _ ⟨0, some 5⟩ (by decide)).2.2.2 1 (by decide)⟩
